import Mathlib

/-!
Shallow embedding of the leveled logging facility in `log.go` (package `log`),
together with theorems checking the natural-language specification against it.

Conventions of the embedding:
* Go byte slices and strings are modelled as `List Char` (the code only ever
  compares against the ASCII byte `'/'`, for which the `Char`-level view of a
  UTF-8 string is faithful).
* Go `int` is modelled as `Int` where sign matters (levels, widths, zone
  offsets) and as `Nat` where the source only ever holds non-negative values
  (clock fields, line numbers).
* The wall-clock time and the `runtime.Caller` lookup are external inputs of
  `Output`; they are passed as explicit oracle parameters.
* A Go panic (the out-of-range array index in `header`) is modelled by the
  `none` result of an `Option`.
* The sink (`io.Writer`) is a function from the written bytes to the pair
  `(bytes written, error)`, with `Option String` standing for Go's `error`
  (`none` = `nil`).
-/

namespace GoLog

/-- LevelDebug is the `iota` constant `0` (Go's `type Level int` is modelled
directly as `Int`). -/
def LevelDebug : Int := 0
/-- LevelInfo is the `iota` constant `1`. -/
def LevelInfo : Int := 1
/-- LevelWarn is the `iota` constant `2`. -/
def LevelWarn : Int := 2
/-- LevelError is the `iota` constant `3`. -/
def LevelError : Int := 3

/-- LevelStrings models the Go array type `[5]string`: exactly five entries. -/
structure LevelStrings where
  e0 : String
  e1 : String
  e2 : String
  e3 : String
  e4 : String
deriving DecidableEq

/-- Indexing `pre[i]` of a `[5]string` with a Go `int` index: in range yields
the entry, out of range panics (modelled by `none`). -/
def LevelStrings.get (p : LevelStrings) (i : Int) : Option String :=
  if i = 0 then some p.e0
  else if i = 1 then some p.e1
  else if i = 2 then some p.e2
  else if i = 3 then some p.e3
  else if i = 4 then some p.e4
  else none

/-- DefaultLevelStrings: the composite literal lists only four strings, so the
fifth entry of the `[5]string` array is Go's zero value, the empty string. -/
def DefaultLevelStrings : LevelStrings :=
  { e0 := "DEBUG", e1 := "INFO ", e2 := "WARN ", e3 := "ERROR", e4 := "" }

/-- Flags represents options for the logger (`type Flags int`); only
non-negative bit patterns occur, so `Nat` with bitwise operations. -/
abbrev Flags := Nat

/-- FlagLongPath is `1 << 0`. -/
def FlagLongPath : Flags := 1
/-- FlagShortPath is `1 << 1`. -/
def FlagShortPath : Flags := 2

/-- Sink models the `io.Writer` the logger borrows: `Write` takes the byte
slice and returns `(n, err)`. -/
structure Sink where
  write : List Char → Nat × Option String

/-- Time models the components of `time.Time` that `date` consumes: the
`Date()` and `Clock()` fields and the `Zone()` offset in seconds. -/
structure Time where
  year : Nat
  month : Nat
  day : Nat
  hour : Nat
  minute : Nat
  second : Nat
  off : Int

/-- Logger is the stateful record: sink, scratch buffer, minimum level,
level strings and flags (the mutex is a no-op in this sequential model). -/
structure Logger where
  out : Sink
  buf : List Char
  min : Int
  pre : LevelStrings
  flag : Flags

/-- New creates a new logger; if `pre` is `nil` (`none`) the default level
strings are used; `buf` starts as the zero value `nil`. -/
def New (out : Sink) (minLevel : Int) (flags : Flags) (pre : Option LevelStrings) : Logger :=
  { out := out, buf := [], min := minLevel, pre := pre.getD DefaultLevelStrings, flag := flags }

/-- itoa renders `i` in decimal, left-padded with zeros to width `wid`.
Faithful image of the source loop: each iteration emits the digit `i % 10`
(bytes fill the local array right to left, hence the digit goes to the right
of the recursive result), divides `i` by ten and decrements `wid`; the loop
runs while `i >= 10 || wid > 1` and a final digit is emitted afterwards. -/
def itoa (i : Nat) (wid : Int) : List Char :=
  if h : 10 ≤ i ∨ 1 < wid then
    itoa (i / 10) (wid - 1) ++ [Char.ofNat (48 + i % 10)]
  else
    [Char.ofNat (48 + i)]
termination_by i + wid.toNat
decreasing_by omega

/-- digitsRepCore is a fuel-driven plain decimal printer used as the
specification-side description of digit strings. -/
def digitsRepCore : Nat → Nat → List Char
  | 0, _ => []
  | fuel + 1, n =>
      if n < 10 then [Char.ofNat (48 + n)]
      else digitsRepCore fuel (n / 10) ++ [Char.ofNat (48 + n % 10)]

/-- digitsRep is the bare (unpadded) decimal representation of `n`. -/
def digitsRep (n : Nat) : List Char := digitsRepCore (n + 1) n

/-- zeroPadded is the specification-side rendering of a numeric field:
decimal digits, left-padded with `'0'` to width `w`, never truncated. -/
def zeroPadded (w n : Nat) : List Char :=
  List.replicate (w - (digitsRep n).length) '0' ++ digitsRep n

theorem digitsRepCore_congr :
    ∀ (n f g : Nat), n < f → n < g → digitsRepCore f n = digitsRepCore g n := by
  intro n
  induction n using Nat.strong_induction_on with
  | _ n ih =>
    intro f g hf hg
    match f, g with
    | ff + 1, gg + 1 =>
      simp only [digitsRepCore]
      by_cases h10 : n < 10
      · simp [h10]
      · have hpos : 0 < n := by omega
        have hdiv : n / 10 < n := Nat.div_lt_self hpos (by norm_num)
        simp only [h10, if_neg, if_false]
        rw [ih (n / 10) hdiv ff gg (by omega) (by omega)]

theorem digitsRep_unfold (n : Nat) :
    digitsRep n =
      if n < 10 then [Char.ofNat (48 + n)]
      else digitsRep (n / 10) ++ [Char.ofNat (48 + n % 10)] := by
  unfold digitsRep
  conv_lhs => simp only [digitsRepCore]
  by_cases h10 : n < 10
  · simp [h10]
  · have hpos : 0 < n := by omega
    have hdiv : n / 10 < n := Nat.div_lt_self hpos (by norm_num)
    simp only [h10, if_false]
    rw [digitsRepCore_congr (n / 10) n (n / 10 + 1) (by omega) (by omega)]

theorem digitsRep_length_pos (n : Nat) : 0 < (digitsRep n).length := by
  rw [digitsRep_unfold]
  by_cases h10 : n < 10 <;> simp [h10]

theorem itoa_eq_zeroPadded_aux :
    ∀ (m i : Nat) (wid : Int), i + wid.toNat ≤ m →
      itoa i wid = List.replicate (wid.toNat - (digitsRep i).length) '0' ++ digitsRep i := by
  intro m
  induction m using Nat.strong_induction_on with
  | _ m ih =>
    intro i wid hm
    rw [itoa]
    by_cases h : 10 ≤ i ∨ 1 < wid
    · have h1 : i / 10 ≤ i := Nat.div_le_self _ _
      have h2 : i = 0 ∨ i / 10 < i := by
        rcases Nat.eq_zero_or_pos i with h0 | h0
        · exact Or.inl h0
        · exact Or.inr (Nat.div_lt_self h0 (by norm_num))
      have hlt : i / 10 + (wid - 1).toNat < m := by omega
      rw [dif_pos h, ih (i / 10 + (wid - 1).toNat) hlt (i / 10) (wid - 1) (le_refl _)]
      rcases Nat.lt_or_ge i 10 with hi10 | hi10
      · -- padding-only iteration: i < 10, so wid > 1 and i / 10 = 0
        have hw : 1 < wid := by omega
        have hdiv0 : i / 10 = 0 := Nat.div_eq_of_lt hi10
        have hmod : i % 10 = i := Nat.mod_eq_of_lt hi10
        have h0 : digitsRep 0 = ['0'] := by decide
        have hi' : digitsRep i = [Char.ofNat (48 + i)] := by
          rw [digitsRep_unfold, if_pos hi10]
        rw [hdiv0, hmod, h0, hi']
        have hmerge : List.replicate ((wid - 1).toNat - 1) '0' ++ ['0'] =
            List.replicate (wid.toNat - 1) '0' := by
          rw [← List.replicate_succ']
          congr 1
          omega
        simp only [List.length_singleton]
        rw [List.append_assoc, List.singleton_append]
        rw [show ('0' : Char) :: [Char.ofNat (48 + i)] = ['0'] ++ [Char.ofNat (48 + i)] from rfl]
        rw [← List.append_assoc, hmerge]
      · -- digit-emitting iteration: 10 ≤ i
        have hrec : digitsRep i = digitsRep (i / 10) ++ [Char.ofNat (48 + i % 10)] := by
          rw [digitsRep_unfold, if_neg (by omega)]
        rw [hrec, List.length_append, List.length_singleton]
        have hkey : (wid - 1).toNat - (digitsRep (i / 10)).length
            = wid.toNat - ((digitsRep (i / 10)).length + 1) := by omega
        rw [hkey, List.append_assoc]
    · rw [dif_neg h]
      push_neg at h
      obtain ⟨hi, hw⟩ := h
      rw [digitsRep_unfold, if_pos hi]
      have hn : wid.toNat - 1 = 0 := by omega
      simp [List.length_singleton, hn]

/-- itoa agrees with the zero-padded decimal rendering of its argument. -/
theorem itoa_eq_zeroPadded (i : Nat) (wid : Int) :
    itoa i wid = zeroPadded wid.toNat i :=
  itoa_eq_zeroPadded_aux (i + wid.toNat) i wid (le_refl _)

/-- itoa with the width `-1` used for line numbers is the bare decimal. -/
theorem itoa_neg_one (i : Nat) : itoa i (-1) = digitsRep i := by
  rw [itoa_eq_zeroPadded]
  simp [zeroPadded]

/-- zonePart is the timezone designator appended by `date`: `Z` for offset
zero, otherwise a sign from the truncated-division minute count
`zone := off / 60` followed by `zone / 60` and `zone % 60`, each width 2
(after negating `zone` in the negative branch, so both operands are
non-negative and Go's `/` and `%` coincide with the `Nat` operations). -/
def zonePart (off : Int) : List Char :=
  if off = 0 then ['Z']
  else if Int.tdiv off 60 < 0 then
    '-' :: (itoa ((-Int.tdiv off 60).toNat / 60) 2 ++ ':' :: itoa ((-Int.tdiv off 60).toNat % 60) 2)
  else
    '+' :: (itoa ((Int.tdiv off 60).toNat / 60) 2 ++ ':' :: itoa ((Int.tdiv off 60).toNat % 60) 2)

/-- date renders `YYYY-MM-DDTHH:MM:SS` followed by the timezone designator,
exactly in the source's append order; returned as the appended bytes. -/
def date (now : Time) : List Char :=
  itoa now.year 4 ++ '-' :: itoa now.month 2 ++ '-' :: itoa now.day 2 ++
    'T' :: itoa now.hour 2 ++ ':' :: itoa now.minute 2 ++ ':' :: itoa now.second 2 ++
    zonePart now.off

/-- shortenPathLoop is the source's backwards scan
`for i := len(file)-1; i > 0; i--`: the first slash found at an index
strictly greater than zero cuts the path after it; index 0 is never examined. -/
def shortenPathLoop (file : List Char) : Nat → List Char
  | 0 => file
  | i + 1 => if file.getD (i + 1) ' ' = '/' then file.drop (i + 2) else shortenPathLoop file i

/-- shortenPath is the `FlagShortPath` truncation of the file path. -/
def shortenPath (file : List Char) : List Char :=
  shortenPathLoop file (file.length - 1)

/-- header assembles level label, space, date, space and the optional
`path:line: ` location segment; `none` models the panic of the array index
`log.pre[int(level)]` when `level` is outside `0..4`. -/
def header (pre : LevelStrings) (flag : Flags) (level : Int) (now : Time)
    (file : List Char) (line : Nat) : Option (List Char) :=
  match pre.get level with
  | none => none
  | some lab =>
      some (lab.data ++ ' ' :: date now ++ ' ' ::
        (if flag &&& (FlagShortPath ||| FlagLongPath) ≠ 0 then
          (if flag &&& FlagShortPath ≠ 0 then shortenPath file else file) ++
            ':' :: itoa line (-1) ++ [':', ' ']
        else []))

/-- resolveCaller is the caller-location block of `Output`: when a path flag
is set, consult the `runtime.Caller` oracle, degrading to path `?` and line
`0` on failure; otherwise the Go zero values `""` and `0` are kept. -/
def resolveCaller (flag : Flags) (ci : Option (List Char × Nat)) : List Char × Nat :=
  if flag &&& (FlagShortPath ||| FlagLongPath) ≠ 0 then
    match ci with
    | some r => r
    | none => (['?'], 0)
  else ([], 0)

/-- Output is the generic printing function. Inputs beyond the source
signature: `now` is the sampled wall clock and `ci` the `runtime.Caller`
oracle. The result is `none` on panic, otherwise the updated logger (its
scratch buffer reset and refilled), the list of sink writes performed
(empty or one full buffer) and the returned `error`. -/
def Output (log : Logger) (now : Time) (ci : Option (List Char × Nat)) (l : Int)
    (s : List Char) : Option (Logger × List (List Char) × Option String) :=
  if l < log.min then some (log, [], none)
  else
    match header log.pre log.flag l now (resolveCaller log.flag ci).1
        (resolveCaller log.flag ci).2 with
    | none => none
    | some h =>
        some ({ log with buf := h ++ s ++ ['\n'] }, [h ++ s ++ ['\n']],
          (log.out.write (h ++ s ++ ['\n'])).2)

/-- GoValue models the `interface\x7b\x7d` arguments of the variadic API: the
repository only relies on strings and values with a default rendering, so a
string constructor and an integer constructor (rendered in decimal, as by
`fmt`) suffice to express and to refute the claims about `fmt.Sprint`. -/
inductive GoValue where
  | str : String → GoValue
  | int : Int → GoValue
deriving DecidableEq

/-- text is the default textual representation (`%v`) of a value, as bytes. -/
def GoValue.text : GoValue → List Char
  | .str s => s.data
  | .int n => (toString n).data

/-- isString tells whether the operand is a Go string, the condition under
which `fmt.Sprint` suppresses the separating space. -/
def GoValue.isString : GoValue → Bool
  | .str _ => true
  | .int _ => false

/-- sprintLoop models `fmt.Sprint`'s operand loop: from the second operand on,
a single space is inserted when neither the previous nor the current operand
is a string. Modelled from the documented semantics of Go's `fmt.Sprint`,
which the wrappers in the source delegate to. -/
def sprintLoop (prevIsStr : Bool) : List GoValue → List Char
  | [] => []
  | v :: rest =>
      (if !prevIsStr && !v.isString then [' '] else []) ++ v.text ++ sprintLoop v.isString rest

/-- sprint models `fmt.Sprint(v...)`. -/
def sprint : List GoValue → List Char
  | [] => []
  | v :: rest => v.text ++ sprintLoop v.isString rest

/-- sprintf models the fragment of Go's `fmt.Sprintf` exercised here: literal
bytes pass through, `%d` consumes an integer operand and `%s` a string
operand. Modelled from the documented semantics of Go's `fmt.Sprintf`. -/
def sprintf : List Char → List GoValue → List Char
  | [], _ => []
  | '%' :: 'd' :: rest, GoValue.int n :: args => (toString n).data ++ sprintf rest args
  | '%' :: 's' :: rest, GoValue.str s :: args => s.data ++ sprintf rest args
  | c :: rest, args => c :: sprintf rest args

/-- Log outputs a log message at the specified level; the wrapper calls
`Output` with `fmt.Sprint(v...)` and discards the returned error, so its
result (on normal return) carries the state and the writes but no error. -/
def Log (log : Logger) (now : Time) (ci : Option (List Char × Nat)) (l : Int)
    (v : List GoValue) : Option (Logger × List (List Char)) :=
  (Output log now ci l (sprint v)).map fun r => (r.1, r.2.1)

/-- Logf outputs a formatted log message at the specified level, discarding
the error from `Output`. -/
def Logf (log : Logger) (now : Time) (ci : Option (List Char × Nat)) (l : Int)
    (format : List Char) (v : List GoValue) : Option (Logger × List (List Char)) :=
  (Output log now ci l (sprintf format v)).map fun r => (r.1, r.2.1)

/-- Debug is Log at the debug log level. -/
def Debug (log : Logger) (now : Time) (ci : Option (List Char × Nat))
    (v : List GoValue) : Option (Logger × List (List Char)) :=
  (Output log now ci LevelDebug (sprint v)).map fun r => (r.1, r.2.1)

/-- Debugf is Logf at the debug log level. -/
def Debugf (log : Logger) (now : Time) (ci : Option (List Char × Nat))
    (format : List Char) (v : List GoValue) : Option (Logger × List (List Char)) :=
  (Output log now ci LevelDebug (sprintf format v)).map fun r => (r.1, r.2.1)

/-- Info is Log at the info log level. -/
def Info (log : Logger) (now : Time) (ci : Option (List Char × Nat))
    (v : List GoValue) : Option (Logger × List (List Char)) :=
  (Output log now ci LevelInfo (sprint v)).map fun r => (r.1, r.2.1)

/-- Infof is Logf at the info log level. -/
def Infof (log : Logger) (now : Time) (ci : Option (List Char × Nat))
    (format : List Char) (v : List GoValue) : Option (Logger × List (List Char)) :=
  (Output log now ci LevelInfo (sprintf format v)).map fun r => (r.1, r.2.1)

/-- Warn is Log at the warn log level. -/
def Warn (log : Logger) (now : Time) (ci : Option (List Char × Nat))
    (v : List GoValue) : Option (Logger × List (List Char)) :=
  (Output log now ci LevelWarn (sprint v)).map fun r => (r.1, r.2.1)

/-- Warnf is Logf at the warn log level. -/
def Warnf (log : Logger) (now : Time) (ci : Option (List Char × Nat))
    (format : List Char) (v : List GoValue) : Option (Logger × List (List Char)) :=
  (Output log now ci LevelWarn (sprintf format v)).map fun r => (r.1, r.2.1)

/-- Error is Log at the error log level. -/
def Error (log : Logger) (now : Time) (ci : Option (List Char × Nat))
    (v : List GoValue) : Option (Logger × List (List Char)) :=
  (Output log now ci LevelError (sprint v)).map fun r => (r.1, r.2.1)

/-- Errorf is Logf at the error log level. -/
def Errorf (log : Logger) (now : Time) (ci : Option (List Char × Nat))
    (format : List Char) (v : List GoValue) : Option (Logger × List (List Char)) :=
  (Output log now ci LevelError (sprintf format v)).map fun r => (r.1, r.2.1)

/-! Concrete fixtures used by witnesses and counterexamples. -/

/-- sinkOk is a sink that accepts every write. -/
def sinkOk : Sink := ⟨fun bs => (bs.length, none)⟩

/-- tTest is a fixed wall-clock instant (UTC). -/
def tTest : Time := ⟨2024, 3, 2, 15, 4, 5, 0⟩

/-- logTest is a logger at threshold `LevelInfo` with no flags. -/
def logTest : Logger := New sinkOk LevelInfo 0 none

/-- logPath is a logger at threshold `LevelDebug` with the short-path flag. -/
def logPath : Logger := New sinkOk LevelDebug FlagShortPath none

/-! Helper lemmas. -/

theorem LevelStrings.get_isSome (p : LevelStrings) (l : Int) (h0 : 0 ≤ l) (h4 : l ≤ 4) :
    ∃ s, p.get l = some s := by
  unfold LevelStrings.get
  split_ifs <;> first | exact ⟨_, rfl⟩ | omega

theorem LevelStrings.get_eq_none (p : LevelStrings) (l : Int) (h : l < 0 ∨ 4 < l) :
    p.get l = none := by
  unfold LevelStrings.get
  rcases h with h | h <;> split_ifs <;> first | rfl | omega

/-- Output on an unfiltered, in-range level: the scratch buffer is rebuilt,
written to the sink once, and the sink's error is returned. -/
theorem Output_unfiltered (log : Logger) (now : Time) (ci : Option (List Char × Nat))
    (l : Int) (s : List Char) (hmin : log.min ≤ l) (h0 : 0 ≤ l) (h4 : l ≤ 4) :
    ∃ line, Output log now ci l s = some ({ log with buf := line }, [line], (log.out.write line).2) := by
  have hnl : ¬ l < log.min := not_lt.mpr hmin
  obtain ⟨lab, hlab⟩ := LevelStrings.get_isSome log.pre l h0 h4
  unfold Output header
  rw [if_neg hnl, hlab]
  exact ⟨_, rfl⟩

/-- framePreserved states that the configuration fields of the logger (sink,
threshold, labels, flags) are unchanged. -/
def framePreserved (a b : Logger) : Prop :=
  b.out = a.out ∧ b.min = a.min ∧ b.pre = a.pre ∧ b.flag = a.flag

theorem Output_frame {log : Logger} {now : Time} {ci : Option (List Char × Nat)}
    {l : Int} {s : List Char} {lg : Logger} {ws : List (List Char)} {err : Option String}
    (h : Output log now ci l s = some (lg, ws, err)) : framePreserved log lg := by
  unfold Output at h
  split at h
  · simp only [Option.some.injEq, Prod.mk.injEq] at h
    obtain ⟨h1, -⟩ := h
    subst h1
    exact ⟨rfl, rfl, rfl, rfl⟩
  · split at h
    · exact absurd h (by simp)
    · simp only [Option.some.injEq, Prod.mk.injEq] at h
      obtain ⟨h1, -⟩ := h
      subst h1
      exact ⟨rfl, rfl, rfl, rfl⟩

theorem map_frame {log : Logger} {now : Time} {ci : Option (List Char × Nat)}
    {l : Int} {msg : List Char} {lg : Logger} {ws : List (List Char)}
    (h : (Output log now ci l msg).map (fun r => (r.1, r.2.1)) = some (lg, ws)) :
    framePreserved log lg := by
  rw [Option.map_eq_some'] at h
  obtain ⟨⟨r1, r2, r3⟩, hr, heq⟩ := h
  simp only [Prod.mk.injEq] at heq
  obtain ⟨h1, -⟩ := heq
  subst h1
  exact Output_frame hr

theorem header_flag3_eq_flag2 (pre : LevelStrings) (l : Int) (now : Time)
    (file : List Char) (line : Nat) :
    header pre 3 l now file line = header pre 2 l now file line := by
  unfold header
  cases pre.get l with
  | none => rfl
  | some lab => simp [FlagShortPath, FlagLongPath]

/-! Claim theorems. -/

/-- C1: for every threshold `T = log.min` and record severity `S = l` (a
severity value, hence within the label range `0..4`), `Output` performs a
sink write if and only if `T ≤ S`; when `S < T` it returns `nil` at once,
leaves the logger (scratch buffer included) untouched, and never consults
the caller-location oracle. -/
theorem output_filtering (log : Logger) (now : Time) (ci ci' : Option (List Char × Nat))
    (l : Int) (s : List Char) (h0 : 0 ≤ l) (h4 : l ≤ 4) :
    (l < log.min → Output log now ci l s = some (log, [], none)
      ∧ Output log now ci' l s = Output log now ci l s)
    ∧ (log.min ≤ l → ∃ lg line err, Output log now ci l s = some (lg, [line], err)) := by
  constructor
  · intro hlt
    constructor
    · unfold Output
      rw [if_pos hlt]
    · unfold Output
      rw [if_pos hlt, if_pos hlt]
  · intro hmin
    obtain ⟨line, hline⟩ := Output_unfiltered log now ci l s hmin h0 h4
    exact ⟨_, line, _, hline⟩

/-- Witness for C1 at a concrete logger and severity. -/
theorem output_filtering_witness :
    (0 : Int) ≤ LevelDebug ∧ LevelDebug ≤ 4 ∧
    ((LevelDebug < logTest.min →
        Output logTest tTest (some ("f.go".data, 7)) LevelDebug "m".data = some (logTest, [], none)
        ∧ Output logTest tTest none LevelDebug "m".data
          = Output logTest tTest (some ("f.go".data, 7)) LevelDebug "m".data)
      ∧ (logTest.min ≤ LevelDebug → ∃ lg line err,
          Output logTest tTest (some ("f.go".data, 7)) LevelDebug "m".data = some (lg, [line], err))) :=
  ⟨by decide, by decide,
    output_filtering logTest tTest (some ("f.go".data, 7)) none LevelDebug "m".data
      (by decide) (by decide)⟩

/-- C5: when both `FlagLongPath` and `FlagShortPath` are set, the short-path
behavior wins: the header (and hence the emitted bytes and returned error of
`Output`) are exactly those produced with only `FlagShortPath` set, and the
path segment is the truncated one. -/
theorem both_flags_short_wins (pre : LevelStrings) (l : Int) (now : Time)
    (file : List Char) (line : Nat) (log : Logger) (ci : Option (List Char × Nat))
    (s : List Char) :
    header pre (FlagLongPath ||| FlagShortPath) l now file line
      = header pre FlagShortPath l now file line
    ∧ (∀ lab, pre.get l = some lab →
        header pre (FlagLongPath ||| FlagShortPath) l now file line =
          some (lab.data ++ ' ' :: date now ++ ' ' ::
            (shortenPath file ++ ':' :: itoa line (-1) ++ [':', ' '])))
    ∧ (Output { log with flag := FlagLongPath ||| FlagShortPath } now ci l s).map
        (fun r => (r.2.1, r.2.2))
      = (Output { log with flag := FlagShortPath } now ci l s).map
        (fun r => (r.2.1, r.2.2)) := by
  refine ⟨?_, ?_, ?_⟩
  · have : (FlagLongPath ||| FlagShortPath : Nat) = 3 := by decide
    rw [this]
    have : (FlagShortPath : Nat) = 2 := by decide
    rw [this]
    exact header_flag3_eq_flag2 pre l now file line
  · intro lab hlab
    unfold header
    rw [hlab]
    simp [FlagShortPath, FlagLongPath]
  · have e3 : (FlagLongPath ||| FlagShortPath : Nat) = 3 := by decide
    have e2 : (FlagShortPath : Nat) = 2 := by decide
    rw [e3, e2]
    unfold Output
    dsimp only
    by_cases hlt : l < log.min
    · rw [if_pos hlt, if_pos hlt]
      rfl
    · rw [if_neg hlt, if_neg hlt]
      have hr : resolveCaller 3 ci = resolveCaller 2 ci := by
        unfold resolveCaller
        simp [FlagShortPath, FlagLongPath]
      rw [hr, header_flag3_eq_flag2]
      cases header log.pre 2 l now (resolveCaller 2 ci).1 (resolveCaller 2 ci).2 with
      | none => rfl
      | some h => rfl

/-- Witness for C5 at a concrete level, path and line. -/
theorem both_flags_short_wins_witness :
    DefaultLevelStrings.get LevelError = some "ERROR" ∧
    header DefaultLevelStrings (FlagLongPath ||| FlagShortPath) LevelError tTest "/a/b/c.go".data 42
      = some ("ERROR".data ++ ' ' :: date tTest ++ ' ' ::
          (shortenPath "/a/b/c.go".data ++ ':' :: itoa 42 (-1) ++ [':', ' '])) :=
  ⟨by decide,
    (both_flags_short_wins DefaultLevelStrings LevelError tTest "/a/b/c.go".data 42 logTest
        none []).2.1 "ERROR" (by decide)⟩

/-- C9: every emission operation (`Output` and all convenience wrappers)
leaves the logger's sink reference, minimum threshold, label mapping and
format options unchanged: a normally-returned logger differs at most in the
scratch buffer, so the labels are immutable after construction. -/
theorem emission_frame (log : Logger) (now : Time) (ci : Option (List Char × Nat))
    (l : Int) (s format : List Char) (v : List GoValue) :
    (∀ lg ws err, Output log now ci l s = some (lg, ws, err) → framePreserved log lg)
    ∧ (∀ lg ws, Log log now ci l v = some (lg, ws) → framePreserved log lg)
    ∧ (∀ lg ws, Logf log now ci l format v = some (lg, ws) → framePreserved log lg)
    ∧ (∀ lg ws, Debug log now ci v = some (lg, ws) → framePreserved log lg)
    ∧ (∀ lg ws, Debugf log now ci format v = some (lg, ws) → framePreserved log lg)
    ∧ (∀ lg ws, Info log now ci v = some (lg, ws) → framePreserved log lg)
    ∧ (∀ lg ws, Infof log now ci format v = some (lg, ws) → framePreserved log lg)
    ∧ (∀ lg ws, Warn log now ci v = some (lg, ws) → framePreserved log lg)
    ∧ (∀ lg ws, Warnf log now ci format v = some (lg, ws) → framePreserved log lg)
    ∧ (∀ lg ws, Error log now ci v = some (lg, ws) → framePreserved log lg)
    ∧ (∀ lg ws, Errorf log now ci format v = some (lg, ws) → framePreserved log lg) :=
  ⟨fun _ _ _ h => Output_frame h,
   fun _ _ h => map_frame h, fun _ _ h => map_frame h,
   fun _ _ h => map_frame h, fun _ _ h => map_frame h,
   fun _ _ h => map_frame h, fun _ _ h => map_frame h,
   fun _ _ h => map_frame h, fun _ _ h => map_frame h,
   fun _ _ h => map_frame h, fun _ _ h => map_frame h⟩

/-- Witness for C9 on a concrete (filtered) emission. -/
theorem emission_frame_witness : framePreserved logTest logTest :=
  (emission_frame logTest tTest none LevelDebug "m".data "f".data []).1 logTest [] none rfl

/-- C10: for levels `0 ≤ L ≤ 4` the label lookup `pre[L]` is in bounds and an
unfiltered `Output` returns normally; for `L < 0` or `L > 4` the lookup is out
of bounds and an unfiltered `Output` hits the unguarded out-of-range access
(modelled by `none`) — the code path at the public interface. -/
theorem label_lookup_bounds (log : Logger) (now : Time) (ci : Option (List Char × Nat))
    (l : Int) (s : List Char) :
    (0 ≤ l → l ≤ 4 →
      (log.pre.get l).isSome ∧ (log.min ≤ l → (Output log now ci l s).isSome))
    ∧ (l < 0 ∨ 4 < l →
      log.pre.get l = none ∧ (log.min ≤ l → Output log now ci l s = none)) := by
  constructor
  · intro h0 h4
    obtain ⟨lab, hlab⟩ := LevelStrings.get_isSome log.pre l h0 h4
    refine ⟨by simp [hlab], fun hmin => ?_⟩
    obtain ⟨line, hline⟩ := Output_unfiltered log now ci l s hmin h0 h4
    simp [hline]
  · intro hoor
    have hnone := LevelStrings.get_eq_none log.pre l hoor
    refine ⟨hnone, fun hmin => ?_⟩
    have hnl : ¬ l < log.min := not_lt.mpr hmin
    unfold Output header
    rw [if_neg hnl, hnone]

/-- Witness for C10 at an in-range and an out-of-range level. -/
theorem label_lookup_bounds_witness :
    ((logTest.pre.get 2).isSome
      ∧ (logTest.min ≤ 2 → (Output logTest tTest none 2 "m".data).isSome))
    ∧ (logTest.pre.get 5 = none
      ∧ (logTest.min ≤ 5 → Output logTest tTest none 5 "m".data = none)) :=
  ⟨(label_lookup_bounds logTest tTest none 2 "m".data).1 (by decide) (by decide),
   (label_lookup_bounds logTest tTest none 5 "m".data).2 (by decide)⟩

/-- C8 counterexample: the fifth entry of the default label array — an index
a Go `Level` value can select — is the empty string, refuting the claim that
every selectable entry of `DefaultLevelStrings` is non-empty. -/
theorem default_labels_counterexample :
    DefaultLevelStrings.get 4 = some "" ∧
    ¬ (∀ l : Int, 0 ≤ l → l ≤ 4 →
        ∃ s, DefaultLevelStrings.get l = some s ∧ s ≠ "") := by
  refine ⟨by decide, fun hall => ?_⟩
  obtain ⟨s, hs, hne⟩ := hall 4 (by decide) (by decide)
  rw [show DefaultLevelStrings.get 4 = some "" from by decide] at hs
  injection hs with hs'
  exact hne hs'.symm

/-- C8 amended: every entry of the default label set selectable by one of the
four declared severities is non-empty; the fifth entry, while selectable by a
`Level` value of 4, is the empty string. -/
theorem default_labels_amended (l : Int) (h0 : 0 ≤ l) (h3 : l ≤ 3) :
    (∃ s, DefaultLevelStrings.get l = some s ∧ s ≠ "")
    ∧ DefaultLevelStrings.get 4 = some "" := by
  refine ⟨?_, by decide⟩
  unfold LevelStrings.get
  split_ifs <;> first | exact ⟨_, rfl, by decide⟩ | omega

/-- Witness for C8 at a concrete severity. -/
theorem default_labels_amended_witness :
    (0 : Int) ≤ LevelWarn ∧ LevelWarn ≤ 3 ∧
    ((∃ s, DefaultLevelStrings.get LevelWarn = some s ∧ s ≠ "")
      ∧ DefaultLevelStrings.get 4 = some "") :=
  ⟨by decide, by decide, default_labels_amended LevelWarn (by decide) (by decide)⟩

/-! Claim-side path truncation (the words of the specification) and the
lemmas connecting it with the source's backwards scan. -/

/-- claimShort follows the specification's words for the short-path option:
the substring after the last path-separator character, or the path
unmodified when it contains none. -/
def claimShort : List Char → List Char
  | [] => []
  | c :: rest =>
      if '/' ∈ rest then claimShort rest
      else if c = '/' then rest
      else c :: rest

/-- claimShortAmended is the amended truncation: the substring after the
last separator occurring at position 1 or later; a path whose only separator
is its first character — like a path with no separator at all — is used
unmodified. -/
def claimShortAmended : List Char → List Char
  | [] => []
  | c :: rest => if '/' ∈ rest then claimShort (c :: rest) else c :: rest

theorem getD_slash_mem : ∀ (cs : List Char) (k : Nat), cs.getD k ' ' = '/' → '/' ∈ cs
  | [], k, h => by simp [List.getD] at h
  | c :: rest, 0, h => by
      rw [List.getD_cons_zero] at h
      exact h ▸ List.mem_cons_self _ _
  | c :: rest, k + 1, h => by
      rw [List.getD_cons_succ] at h
      exact List.mem_cons_of_mem _ (getD_slash_mem rest k h)

theorem mem_slash_getD : ∀ (cs : List Char), '/' ∈ cs → ∃ k, cs.getD k ' ' = '/'
  | [], h => absurd h (List.not_mem_nil _)
  | c :: rest, h => by
      rcases List.mem_cons.mp h with h | h
      · exact ⟨0, by rw [List.getD_cons_zero, ← h]⟩
      · obtain ⟨k, hk⟩ := mem_slash_getD rest h
        exact ⟨k + 1, by rw [List.getD_cons_succ]; exact hk⟩

theorem getD_slash_lt {cs : List Char} {k : Nat} (h : cs.getD k ' ' = '/') : k < cs.length := by
  by_contra hk
  rw [List.getD_eq_default _ _ (by omega)] at h
  exact absurd h (by decide)

theorem shortenPathLoop_no_slash : ∀ (file : List Char) (i : Nat),
    (∀ j, 1 ≤ j → j ≤ i → file.getD j ' ' ≠ '/') → shortenPathLoop file i = file
  | _, 0, _ => rfl
  | file, i + 1, h => by
      unfold shortenPathLoop
      rw [if_neg (h (i + 1) (by omega) (le_refl _))]
      exact shortenPathLoop_no_slash file i (fun j h1 h2 => h j h1 (by omega))

theorem shortenPathLoop_found : ∀ (file : List Char) (i j : Nat),
    1 ≤ j → j ≤ i → file.getD j ' ' = '/' →
    (∀ k, j < k → k ≤ i → file.getD k ' ' ≠ '/') →
    shortenPathLoop file i = file.drop (j + 1)
  | _, 0, _, h1, h2, _, _ => absurd (h1.trans h2) (by decide)
  | file, i + 1, j, h1, h2, hj, hmax => by
      unfold shortenPathLoop
      by_cases he : file.getD (i + 1) ' ' = '/'
      · rw [if_pos he]
        have hji : j = i + 1 := by
          by_contra hne
          exact hmax (i + 1) (by omega) (le_refl _) he
        rw [hji]
      · rw [if_neg he]
        have hji : j ≤ i := by
          by_contra hgt
          have : j = i + 1 := by omega
          exact he (this ▸ hj)
        exact shortenPathLoop_found file i j h1 hji hj
          (fun k hk1 hk2 => hmax k hk1 (by omega))

theorem claimShort_found : ∀ (cs : List Char) (j : Nat),
    cs.getD j ' ' = '/' →
    (∀ k, j < k → cs.getD k ' ' ≠ '/') →
    claimShort cs = cs.drop (j + 1)
  | [], j, hj, _ => by simp [List.getD] at hj
  | c :: rest, 0, hj, hmax => by
      rw [List.getD_cons_zero] at hj
      have hn : '/' ∉ rest := by
        intro hm
        obtain ⟨k, hk⟩ := mem_slash_getD rest hm
        exact hmax (k + 1) (by omega) (by rw [List.getD_cons_succ]; exact hk)
      unfold claimShort
      rw [if_neg hn, if_pos hj]
      rfl
  | c :: rest, j + 1, hj, hmax => by
      rw [List.getD_cons_succ] at hj
      have hmem : '/' ∈ rest := getD_slash_mem rest j hj
      unfold claimShort
      rw [if_pos hmem]
      rw [claimShort_found rest j hj
        (fun k hk => by
          have := hmax (k + 1) (by omega)
          rw [List.getD_cons_succ] at this
          exact this)]
      rfl

def lastSlashIdx : List Char → Option Nat
  | [] => none
  | c :: rest =>
      match lastSlashIdx rest with
      | some j => some (j + 1)
      | none => if c = '/' then some 0 else none

theorem lastSlashIdx_none : ∀ (cs : List Char), lastSlashIdx cs = none → '/' ∉ cs
  | [], _ => List.not_mem_nil _
  | c :: rest, h => by
      unfold lastSlashIdx at h
      cases h' : lastSlashIdx rest with
      | some j =>
          rw [h'] at h
          exact absurd h (by simp)
      | none =>
          rw [h'] at h
          by_cases hc : c = '/'
          · rw [if_pos hc] at h
            exact absurd h (by simp)
          · rw [if_neg hc] at h
            intro hm
            rcases List.mem_cons.mp hm with he | hm'
            · exact hc he.symm
            · exact lastSlashIdx_none rest h' hm'

theorem lastSlashIdx_spec : ∀ (cs : List Char) (j : Nat), lastSlashIdx cs = some j →
    cs.getD j ' ' = '/' ∧ ∀ k, j < k → cs.getD k ' ' ≠ '/'
  | [], j, h => by simp [lastSlashIdx] at h
  | c :: rest, j, h => by
      unfold lastSlashIdx at h
      cases h' : lastSlashIdx rest with
      | some j' =>
          rw [h'] at h
          obtain ⟨hget, hmax⟩ := lastSlashIdx_spec rest j' h'
          have hj : j = j' + 1 := by
            simpa using h.symm
          subst hj
          refine ⟨by rw [List.getD_cons_succ]; exact hget, ?_⟩
          intro k hk
          match k, hk with
          | k' + 1, hk =>
              rw [List.getD_cons_succ]
              exact hmax k' (by omega)
      | none =>
          rw [h'] at h
          have hn : '/' ∉ rest := lastSlashIdx_none rest h'
          by_cases hc : c = '/'
          · rw [if_pos hc] at h
            have hj : j = 0 := by simpa using h.symm
            subst hj
            refine ⟨by rw [List.getD_cons_zero]; exact hc, ?_⟩
            intro k hk
            match k, hk with
            | k' + 1, _ =>
                rw [List.getD_cons_succ]
                intro hne
                exact hn (getD_slash_mem rest k' hne)
          · rw [if_neg hc] at h
            exact absurd h (by simp)

theorem lastSlashIdx_isSome {cs : List Char} (h : '/' ∈ cs) :
    ∃ j, lastSlashIdx cs = some j := by
  cases hl : lastSlashIdx cs with
  | none => exact absurd h (lastSlashIdx_none cs hl)
  | some j => exact ⟨j, rfl⟩

/-- C4 counterexample: for the path `/abc`, whose only separator is its
first character, the code keeps the path unmodified while the claim demands
the substring after the last separator, `abc`. -/
theorem short_path_counterexample :
    shortenPath "/abc".data = "/abc".data
    ∧ claimShort "/abc".data = "abc".data
    ∧ "/abc".data ≠ "abc".data :=
  ⟨by decide, by decide, by decide⟩

/-- C4 amended: for every file path, the short-path truncation keeps the
substring after the last separator found at position 1 or later; a path
whose only separator is its first character, like one with no separator at
all, is used unmodified (paths ending in a separator yield the empty
suffix). -/
theorem short_path_amended (file : List Char) :
    shortenPath file = claimShortAmended file := by
  cases file with
  | nil => rfl
  | cons c rest =>
      show shortenPathLoop (c :: rest) ((c :: rest).length - 1)
        = if '/' ∈ rest then claimShort (c :: rest) else c :: rest
      by_cases hrest : '/' ∈ rest
      · rw [if_pos hrest]
        obtain ⟨j, hj⟩ := lastSlashIdx_isSome hrest
        obtain ⟨hget, hmax⟩ := lastSlashIdx_spec rest j hj
        have hjlen : j < rest.length := getD_slash_lt hget
        have hlen : (c :: rest).length - 1 = rest.length := by
          simp
        rw [hlen]
        rw [shortenPathLoop_found (c :: rest) rest.length (j + 1) (by omega) (by omega)
          (by rw [List.getD_cons_succ]; exact hget)
          (fun k hk1 hk2 => by
            match k, hk1 with
            | k' + 1, _ =>
                rw [List.getD_cons_succ]
                exact hmax k' (by omega))]
        unfold claimShort
        rw [if_pos hrest]
        rw [claimShort_found rest j hget hmax]
        rfl
      · rw [if_neg hrest]
        apply shortenPathLoop_no_slash
        intro k hk1 hk2
        match k, hk1 with
        | k' + 1, _ =>
            rw [List.getD_cons_succ]
            intro hne
            exact hrest (getD_slash_mem rest k' hne)

/-! Claim-side timezone designator and the timezone claim. -/

/-- claimZone is the claim-side designator for a non-zero offset: a sign
character for the offset's direction, then the absolute offset's hours and
(remaining) minutes, each zero-padded to two digits and separated by a
colon. -/
def claimZone (off : Int) : List Char :=
  (if off < 0 then '-' else '+') ::
    (zeroPadded 2 (off.natAbs / 3600) ++ ':' :: zeroPadded 2 (off.natAbs % 3600 / 60))

/-- C3 counterexample: at the non-zero offset of minus thirty seconds the
rendered designator is `+00:00` — its sign does not reflect the offset's
direction, because the truncated division `off / 60` yields zero and the
code then takes the non-negative branch. -/
theorem zone_designator_counterexample :
    ((-30 : Int) ≠ 0) ∧ zonePart (-30) = "+00:00".data
    ∧ claimZone (-30) = "-00:00".data
    ∧ zonePart (-30) ≠ claimZone (-30) := by
  have h02 : itoa 0 2 = ['0', '0'] := by
    rw [itoa_eq_zeroPadded]
    decide
  have hz : zonePart (-30) = '+' :: (itoa 0 2 ++ ':' :: itoa 0 2) := rfl
  rw [hz, h02]
  exact ⟨by decide, by decide, by decide, by decide⟩

/-- C3 amended: the designator is `Z` exactly for offset zero; for every
non-zero offset that is positive or at most minus one minute, it is the
direction sign followed by the absolute offset's hours and minutes, each two
digits; a negative offset of magnitude under one minute degenerates to
`+00:00` because the truncated minute count is zero. -/
theorem zone_designator_amended (off : Int) :
    (zonePart off = ['Z'] ↔ off = 0)
    ∧ (0 < off ∨ off ≤ -60 → zonePart off = claimZone off)
    ∧ (-60 < off → off < 0 →
        zonePart off = '+' :: (zeroPadded 2 0 ++ ':' :: zeroPadded 2 0)) := by
  refine ⟨⟨?_, ?_⟩, ?_, ?_⟩
  · intro h
    by_contra hne
    unfold zonePart at h
    rw [if_neg hne] at h
    split_ifs at h with hzn
    · injection h with h1 h2
      exact absurd h1 (by decide)
    · injection h with h1 h2
      exact absurd h1 (by decide)
  · rintro rfl
    rfl
  · intro hor
    rcases hor with hpos | hneg
    · obtain ⟨n, rfl⟩ := Int.eq_ofNat_of_zero_le hpos.le
      have htd : Int.tdiv (n : Int) 60 = ((n / 60 : Nat) : Int) := rfl
      unfold zonePart claimZone
      rw [htd]
      rw [if_neg (show ¬ (n : Int) = 0 by omega)]
      rw [if_neg (show ¬ ((n / 60 : Nat) : Int) < 0 by omega)]
      rw [if_neg (show ¬ (n : Int) < 0 by omega)]
      rw [show (((n / 60 : Nat) : Int)).toNat = n / 60 from rfl]
      rw [show (n : Int).natAbs = n from rfl]
      simp only [itoa_eq_zeroPadded, show ((2 : Int)).toNat = 2 from rfl]
      rw [show n / 60 / 60 = n / 3600 by omega, show n / 60 % 60 = n % 3600 / 60 by omega]
    · obtain ⟨m, rfl⟩ := Int.eq_negSucc_of_lt_zero (show off < 0 by omega)
      rw [Int.negSucc_eq] at hneg
      have htd : Int.tdiv (Int.negSucc m) 60 = -(((m + 1) / 60 : Nat) : Int) := rfl
      have hk : 1 ≤ (m + 1) / 60 := (Nat.one_le_div_iff (by norm_num)).mpr (by omega)
      unfold zonePart claimZone
      rw [htd]
      rw [if_neg (Int.negSucc_ne_zero m)]
      rw [if_pos (show -(((m + 1) / 60 : Nat) : Int) < 0 by omega)]
      rw [if_pos (Int.negSucc_lt_zero m)]
      rw [show (-(-(((m + 1) / 60 : Nat) : Int))).toNat = (m + 1) / 60 by rw [neg_neg]; rfl]
      rw [show (Int.negSucc m).natAbs = m + 1 from rfl]
      simp only [itoa_eq_zeroPadded, show ((2 : Int)).toNat = 2 from rfl]
      rw [show (m + 1) / 60 / 60 = (m + 1) / 3600 by omega,
        show (m + 1) / 60 % 60 = (m + 1) % 3600 / 60 by omega]
  · intro hgt hlt
    obtain ⟨m, rfl⟩ := Int.eq_negSucc_of_lt_zero hlt
    rw [Int.negSucc_eq] at hgt
    have hm : m + 1 < 60 := by omega
    have htd : Int.tdiv (Int.negSucc m) 60 = -(((m + 1) / 60 : Nat) : Int) := rfl
    have hdz : (m + 1) / 60 = 0 := Nat.div_eq_of_lt hm
    unfold zonePart
    rw [htd, hdz]
    rw [if_neg (Int.negSucc_ne_zero m)]
    rw [if_neg (show ¬ -((0 : Nat) : Int) < 0 by omega)]
    rw [show (-((0 : Nat) : Int)).toNat = 0 from rfl]
    simp only [itoa_eq_zeroPadded, show ((2 : Int)).toNat = 2 from rfl]

/-! Error propagation. -/

theorem Output_isSome (log : Logger) (now : Time) (ci : Option (List Char × Nat))
    (l : Int) (s : List Char) (h0 : 0 ≤ l) (h4 : l ≤ 4) :
    ∃ r, Output log now ci l s = some r := by
  by_cases hlt : l < log.min
  · exact ⟨_, by unfold Output; rw [if_pos hlt]⟩
  · obtain ⟨line, h⟩ := Output_unfiltered log now ci l s (by omega) h0 h4
    exact ⟨_, h⟩

theorem wrapped_isSome (log : Logger) (now : Time) (ci : Option (List Char × Nat))
    (l : Int) (msg : List Char) (h0 : 0 ≤ l) (h4 : l ≤ 4) :
    ∃ r, (Output log now ci l msg).map (fun r => (r.1, r.2.1)) = some r := by
  obtain ⟨r, hr⟩ := Output_isSome log now ci l msg h0 h4
  exact ⟨_, by rw [hr]; rfl⟩

/-- sinkFail is a sink that rejects every write with the same error. -/
def sinkFail : Sink := ⟨fun _ => (0, some "EIO")⟩

/-- logFail is a logger over the always-failing sink, threshold Debug. -/
def logFail : Logger := New sinkFail LevelDebug 0 none

/-- C7: `Output` returns exactly the failure the sink's write reports — and
`nil` on a filtered record — while every convenience wrapper returns
normally whatever the sink does, with a result type that carries no error:
the failure is discarded, never propagated and never a panic (for severities
with a label). -/
theorem write_error_propagation (log : Logger) (now : Time) (ci : Option (List Char × Nat))
    (l : Int) (s format : List Char) (v : List GoValue) (h0 : 0 ≤ l) (h4 : l ≤ 4) :
    (log.min ≤ l → ∃ line,
        Output log now ci l s = some ({ log with buf := line }, [line], (log.out.write line).2))
    ∧ (l < log.min → Output log now ci l s = some (log, [], none))
    ∧ (∃ r, Log log now ci l v = some r)
    ∧ (∃ r, Logf log now ci l format v = some r)
    ∧ (∃ r, Debug log now ci v = some r)
    ∧ (∃ r, Debugf log now ci format v = some r)
    ∧ (∃ r, Info log now ci v = some r)
    ∧ (∃ r, Infof log now ci format v = some r)
    ∧ (∃ r, Warn log now ci v = some r)
    ∧ (∃ r, Warnf log now ci format v = some r)
    ∧ (∃ r, Error log now ci v = some r)
    ∧ (∃ r, Errorf log now ci format v = some r) := by
  refine ⟨fun hmin => Output_unfiltered log now ci l s hmin h0 h4,
    fun hlt => by unfold Output; rw [if_pos hlt],
    wrapped_isSome log now ci l _ h0 h4,
    wrapped_isSome log now ci l _ h0 h4,
    wrapped_isSome log now ci LevelDebug _ (by decide) (by decide),
    wrapped_isSome log now ci LevelDebug _ (by decide) (by decide),
    wrapped_isSome log now ci LevelInfo _ (by decide) (by decide),
    wrapped_isSome log now ci LevelInfo _ (by decide) (by decide),
    wrapped_isSome log now ci LevelWarn _ (by decide) (by decide),
    wrapped_isSome log now ci LevelWarn _ (by decide) (by decide),
    wrapped_isSome log now ci LevelError _ (by decide) (by decide),
    wrapped_isSome log now ci LevelError _ (by decide) (by decide)⟩

/-- Witness for C7 over the always-failing sink. -/
theorem write_error_propagation_witness :
    (0 : Int) ≤ LevelError ∧ LevelError ≤ 4 ∧
    ((logFail.min ≤ LevelError → ∃ line,
        Output logFail tTest none LevelError "m".data
          = some ({ logFail with buf := line }, [line], (logFail.out.write line).2))
    ∧ (LevelError < logFail.min → Output logFail tTest none LevelError "m".data
        = some (logFail, [], none))
    ∧ (∃ r, Log logFail tTest none LevelError [GoValue.str "m"] = some r)
    ∧ (∃ r, Logf logFail tTest none LevelError "f".data [GoValue.str "m"] = some r)
    ∧ (∃ r, Debug logFail tTest none [GoValue.str "m"] = some r)
    ∧ (∃ r, Debugf logFail tTest none "f".data [GoValue.str "m"] = some r)
    ∧ (∃ r, Info logFail tTest none [GoValue.str "m"] = some r)
    ∧ (∃ r, Infof logFail tTest none "f".data [GoValue.str "m"] = some r)
    ∧ (∃ r, Warn logFail tTest none [GoValue.str "m"] = some r)
    ∧ (∃ r, Warnf logFail tTest none "f".data [GoValue.str "m"] = some r)
    ∧ (∃ r, Error logFail tTest none [GoValue.str "m"] = some r)
    ∧ (∃ r, Errorf logFail tTest none "f".data [GoValue.str "m"] = some r)) :=
  ⟨by decide, by decide,
    write_error_propagation logFail tTest none LevelError "m".data "f".data [GoValue.str "m"]
      (by decide) (by decide)⟩

/-! Claim-side variadic concatenation and the variadic-form claim. -/

/-- goCat is the claim-side (amended) concatenation: the operands' default
texts joined, with one space between two adjacent operands when neither is a
string and nothing otherwise. -/
def goCat : List GoValue → List Char
  | [] => []
  | [v] => v.text
  | v :: w :: rest =>
      v.text ++ (if v.isString || w.isString then [] else [' ']) ++ goCat (w :: rest)

theorem sprintLoop_eq_goCat : ∀ (v : GoValue) (rest : List GoValue),
    v.text ++ sprintLoop v.isString rest = goCat (v :: rest)
  | v, [] => by simp [sprintLoop, goCat]
  | v, w :: rest => by
      unfold goCat sprintLoop
      rw [← sprintLoop_eq_goCat w rest]
      by_cases hv : v.isString <;> by_cases hw : w.isString <;> simp [hv, hw]

/-- sprint agrees with the adjacent-operand description of `fmt.Sprint`. -/
theorem sprint_eq_goCat : ∀ v : List GoValue, sprint v = goCat v
  | [] => rfl
  | v :: rest => sprintLoop_eq_goCat v rest

/-- C6 counterexample: with the two integer operands 1 and 2 the message
body handed to `Output` by the variadic form is `1 2` — `fmt.Sprint` inserts
a space between two adjacent non-string operands — while the claim's
separator-free concatenation of the default texts gives `12`. -/
theorem variadic_concat_counterexample :
    sprint [GoValue.int 1, GoValue.int 2] = "1 2".data
    ∧ (GoValue.int 1).text ++ (GoValue.int 2).text = "12".data
    ∧ "1 2".data ≠ "12".data
    ∧ Log logTest tTest none LevelError [GoValue.int 1, GoValue.int 2]
        = (Output logTest tTest none LevelError "1 2".data).map (fun r => (r.1, r.2.1)) := by
  refine ⟨by decide, by decide, by decide, ?_⟩
  unfold Log
  rw [show sprint [GoValue.int 1, GoValue.int 2] = "1 2".data from by decide]

/-- C6 amended: the variadic form emits at the named severity the
concatenation of the operands' default texts with one space between two
adjacent operands when neither is a string (Go's `print` semantics); for
string operands no separator appears, so `Info "a" "b"` emits the body `ab`,
and `Infof "%d-%s" 3 "x"` emits the body `3-x`. -/
theorem variadic_concat_amended (log : Logger) (now : Time) (ci : Option (List Char × Nat))
    (l : Int) (v : List GoValue) :
    Log log now ci l v = (Output log now ci l (goCat v)).map (fun r => (r.1, r.2.1))
    ∧ Info log now ci v = (Output log now ci LevelInfo (goCat v)).map (fun r => (r.1, r.2.1))
    ∧ (∀ a b : String, goCat [GoValue.str a, GoValue.str b] = a.data ++ b.data)
    ∧ sprintf "%d-%s".data [GoValue.int 3, GoValue.str "x"] = "3-x".data
    ∧ (∀ format args, Infof log now ci format args
        = (Output log now ci LevelInfo (sprintf format args)).map (fun r => (r.1, r.2.1))) := by
  refine ⟨?_, ?_, ?_, by decide, fun _ _ => rfl⟩
  · unfold Log
    rw [sprint_eq_goCat]
  · unfold Info
    rw [sprint_eq_goCat]
  · intro a b
    simp [goCat, GoValue.text, GoValue.isString]

/-! Claim-side line format. -/

/-- stampSpec is the claim-side timestamp: the decimal date and clock fields
zero-padded to fixed widths (4 for the year, 2 for the rest) in the
`YYYY-MM-DDTHH:MM:SS` layout, followed by the timezone designator. -/
def stampSpec (t : Time) : List Char :=
  zeroPadded 4 t.year ++ '-' :: zeroPadded 2 t.month ++ '-' :: zeroPadded 2 t.day ++
    'T' :: zeroPadded 2 t.hour ++ ':' :: zeroPadded 2 t.minute ++ ':' :: zeroPadded 2 t.second ++
    zonePart t.off

theorem date_eq_stampSpec (t : Time) : date t = stampSpec t := by
  unfold date stampSpec
  simp only [itoa_eq_zeroPadded, show ((4 : Int)).toNat = 4 from rfl,
    show ((2 : Int)).toNat = 2 from rfl]

/-- C2: on an unfiltered emission (with resolved caller location) the bytes
of the single sink write are exactly: the level label for the record's
severity, one space, the zero-padded timestamp with its designator, one
space, then — only when a path flag is set — the (possibly truncated) path,
a colon, the bare decimal line number, a colon and a space, then the message
bytes verbatim (newlines included), then exactly one trailing newline; the
write's error is what `Output` returns. -/
theorem output_line_bytes (log : Logger) (now : Time) (file : List Char) (lineNo : Nat)
    (l : Int) (s : List Char) (h0 : 0 ≤ l) (h4 : l ≤ 4) (hmin : log.min ≤ l) :
    ∃ lab line, log.pre.get l = some lab
      ∧ line = (lab.data ++ ' ' :: stampSpec now ++ ' ' ::
          (if log.flag &&& (FlagShortPath ||| FlagLongPath) ≠ 0 then
            (if log.flag &&& FlagShortPath ≠ 0 then shortenPath file else file) ++
              ':' :: digitsRep lineNo ++ [':', ' ']
          else [])) ++ s ++ ['\n']
      ∧ Output log now (some (file, lineNo)) l s
          = some ({ log with buf := line }, [line], (log.out.write line).2) := by
  obtain ⟨lab, hlab⟩ := LevelStrings.get_isSome log.pre l h0 h4
  have hnl : ¬ l < log.min := not_lt.mpr hmin
  have hheader : header log.pre log.flag l now
      (resolveCaller log.flag (some (file, lineNo))).1
      (resolveCaller log.flag (some (file, lineNo))).2
    = some (lab.data ++ ' ' :: stampSpec now ++ ' ' ::
        (if log.flag &&& (FlagShortPath ||| FlagLongPath) ≠ 0 then
          (if log.flag &&& FlagShortPath ≠ 0 then shortenPath file else file) ++
            ':' :: digitsRep lineNo ++ [':', ' ']
        else [])) := by
    unfold header resolveCaller
    rw [hlab]
    by_cases hf : log.flag &&& (FlagShortPath ||| FlagLongPath) ≠ 0
    · simp only [if_pos hf, itoa_neg_one, date_eq_stampSpec]
    · simp only [if_neg hf, date_eq_stampSpec]
  refine ⟨lab, _, hlab, rfl, ?_⟩
  unfold Output
  rw [if_neg hnl, hheader]

/-- Witness for C2 at a concrete logger with the short-path flag set. -/
theorem output_line_bytes_witness :
    (0 : Int) ≤ LevelError ∧ LevelError ≤ 4 ∧ logPath.min ≤ LevelError ∧
    (∃ lab line, logPath.pre.get LevelError = some lab
      ∧ line = (lab.data ++ ' ' :: stampSpec tTest ++ ' ' ::
          (if logPath.flag &&& (FlagShortPath ||| FlagLongPath) ≠ 0 then
            (if logPath.flag &&& FlagShortPath ≠ 0 then shortenPath "/a/b/c.go".data
              else "/a/b/c.go".data) ++ ':' :: digitsRep 42 ++ [':', ' ']
          else [])) ++ "msg".data ++ ['\n']
      ∧ Output logPath tTest (some ("/a/b/c.go".data, 42)) LevelError "msg".data
          = some ({ logPath with buf := line }, [line], (logPath.out.write line).2)) :=
  ⟨by decide, by decide, by decide,
    output_line_bytes logPath tTest "/a/b/c.go".data 42 LevelError "msg".data
      (by decide) (by decide) (by decide)⟩

/-- Witness for C3 at the offsets minus seven hours and minus thirty
seconds. -/
theorem zone_designator_amended_witness :
    (0 < (-25200 : Int) ∨ (-25200 : Int) ≤ -60)
    ∧ zonePart (-25200) = claimZone (-25200)
    ∧ ((-60 : Int) < -30) ∧ ((-30 : Int) < 0)
    ∧ zonePart (-30) = '+' :: (zeroPadded 2 0 ++ ':' :: zeroPadded 2 0) :=
  ⟨by decide, (zone_designator_amended (-25200)).2.1 (by decide),
   by decide, by decide, (zone_designator_amended (-30)).2.2 (by decide) (by decide)⟩

end GoLog
